import Mathlib

/-!
Verification of the excitation/ionisation equilibrium model
(oracle/models/equalibria.py, science.py, tests/test_mini_moog.py).

The Python code computes with IEEE floating point numbers.  We embed the
numeric values as `FV`, rationals extended with `nan`, `inf` and `ninf`,
with the IEEE propagation rules for the operations the code uses
(arithmetic on `nan` gives `nan`, comparisons against `nan` are false,
division of a positive finite value by zero gives `inf`, and so on).
Transcendental library calls (`np.sqrt`, `np.log`) are opaque numeric
parameters of the embedding; `ratSqrt` is an exact computable square root
used to instantiate the `np.sqrt` parameter on perfect-square inputs,
where it agrees with the real square root.
-/

namespace Oracle

/-- A floating point value: `nan`, `inf`, `ninf` or a finite rational. -/
inductive FV
  | nan
  | inf
  | ninf
  | fin (q : ℚ)
deriving DecidableEq, Repr

namespace FV

def isFinite : FV → Bool
  | fin _ => true
  | _ => false

def neg : FV → FV
  | nan => nan
  | inf => ninf
  | ninf => inf
  | fin q => fin (-q)

def add : FV → FV → FV
  | nan, _ => nan
  | _, nan => nan
  | inf, ninf => nan
  | ninf, inf => nan
  | inf, _ => inf
  | _, inf => inf
  | ninf, _ => ninf
  | _, ninf => ninf
  | fin a, fin b => fin (a + b)

def sub (a b : FV) : FV := add a (neg b)

def mul : FV → FV → FV
  | nan, _ => nan
  | _, nan => nan
  | inf, inf => inf
  | inf, ninf => ninf
  | ninf, inf => ninf
  | ninf, ninf => inf
  | inf, fin b => if 0 < b then inf else if b < 0 then ninf else nan
  | fin a, inf => if 0 < a then inf else if a < 0 then ninf else nan
  | ninf, fin b => if 0 < b then ninf else if b < 0 then inf else nan
  | fin a, ninf => if 0 < a then ninf else if a < 0 then inf else nan
  | fin a, fin b => fin (a * b)

def div : FV → FV → FV
  | nan, _ => nan
  | _, nan => nan
  | inf, inf => nan
  | inf, ninf => nan
  | ninf, inf => nan
  | ninf, ninf => nan
  | inf, fin b => if 0 ≤ b then inf else ninf
  | ninf, fin b => if 0 ≤ b then ninf else inf
  | fin _, inf => fin 0
  | fin _, ninf => fin 0
  | fin a, fin b =>
      if b = 0 then (if 0 < a then inf else if a < 0 then ninf else nan)
      else fin (a / b)

def lt : FV → FV → Bool
  | nan, _ => false
  | _, nan => false
  | inf, _ => false
  | _, inf => true
  | ninf, ninf => false
  | ninf, _ => true
  | _, ninf => false
  | fin a, fin b => a < b

/-- Strictly-greater comparison, false whenever an operand is `nan`. -/
def gt (a b : FV) : Bool := lt b a

def abs : FV → FV
  | nan => nan
  | inf => inf
  | ninf => inf
  | fin q => fin |q|

instance : Add FV := ⟨add⟩
instance : Sub FV := ⟨sub⟩
instance : Mul FV := ⟨mul⟩
instance : Div FV := ⟨div⟩
instance : Neg FV := ⟨neg⟩

/-- `np.sum` over a list of values (left fold from zero). -/
def sum (l : List FV) : FV := l.foldl add (fin 0)

/-- `np.mean`: the sum divided by the length; the mean of an empty list is
`nan` (zero divided by zero). -/
def mean (l : List FV) : FV := (sum l).div (fin l.length)

end FV

/-- Exact rational square root: on inputs whose reduced numerator and
denominator are perfect squares the result is the exact (real) square
root; elsewhere it returns 0 and is never relied on. -/
def ratSqrt (q : ℚ) : ℚ :=
  if q < 0 then 0
  else
    let n := q.num.toNat
    let d := q.den
    if Nat.sqrt n * Nat.sqrt n = n ∧ Nat.sqrt d * Nat.sqrt d = d then
      (Nat.sqrt n : ℚ) / (Nat.sqrt d : ℚ)
    else 0

/-- `np.std`, with `np.sqrt` supplied as the parameter `s`: the square root
of the mean squared deviation from the mean. -/
def npStd (s : ℚ → ℚ) (l : List FV) : FV :=
  let m := FV.mean l
  let v := FV.mean (l.map (fun d => (d - m) * (d - m)))
  match v with
  | FV.fin q => if q < 0 then FV.nan else FV.fin (s q)
  | FV.inf => FV.inf
  | _ => FV.nan

/-- `np.log`, with the transcendental logarithm on positive rationals
supplied as the parameter `p`. -/
def fvLog (p : ℚ → ℚ) : FV → FV
  | FV.nan => FV.nan
  | FV.inf => FV.inf
  | FV.ninf => FV.nan
  | FV.fin q => if q < 0 then FV.nan else if q = 0 then FV.ninf else FV.fin (p q)

/-- `scipy.stats.linregress`, returning (slope, intercept).  Computed from
the means exactly as scipy does: slope is the mean co-deviation divided by
the mean squared x-deviation, so a regression set with fewer than two
points or with all x-values identical yields a `nan` slope (0/0). -/
def linregress (xs ys : List FV) : FV × FV :=
  let xm := FV.mean xs
  let ym := FV.mean ys
  let ssxm := FV.mean (xs.map (fun x => (x - xm) * (x - xm)))
  let ssxym := FV.mean ((xs.zip ys).map (fun xy => (xy.1 - xm) * (xy.2 - ym)))
  let slope := ssxym.div ssxm
  (slope, ym - slope * xm)

/-- Select the entries of `l` at the true positions of `mask`
(`array[mask]` on aligned arrays). -/
def maskSelect (mask : List Bool) (l : List α) : List α :=
  ((mask.zip l).filter (fun p => p.1)).map (fun p => p.2)

/-- Elementwise conjunction of two boolean masks (`mask1 * mask2`). -/
def maskAnd (a b : List Bool) : List Bool := List.zipWith (· && ·) a b

/-- The fractional part used by the species classification
(`species % 1` in numpy for a non-negative species code). -/
def fract (q : ℚ) : ℚ := q - ⌊q⌋

/-! ## Equivalent width written by fit_atomic_transitions (lines 474-487) -/

/-- The equivalent width that `fit_atomic_transitions` writes into the
atomic transition table:
`10e3 * np.sqrt(np.pi) * amplitude * 0.25 * stddev`,
with the transcendental value `np.sqrt(np.pi)` as the opaque parameter
`sqrtPi`. -/
def fittedEquivalentWidth (sqrtPi amplitude stddev : ℚ) : ℚ :=
  10e3 * sqrtPi * amplitude * 0.25 * stddev

/-- Modelled from the spec: EW = 10 to the 4 times sqrt(pi) times
amplitude times 0.25 times stddev, in milliAngstrom.  Stated separately
from `fittedEquivalentWidth` so the code formula can be compared with the
spec formula. -/
def specEquivalentWidth (sqrtPi amplitude stddev : ℚ) : ℚ :=
  10 ^ 4 * sqrtPi * amplitude * 0.25 * stddev

/-- One row of the atomic transition table (the columns the equilibrium
computation reads).  The equivalent width starts as NaN and is written by
the profile fitter. -/
structure Trans where
  wavelength : ℚ
  species : ℚ
  excitation_potential : ℚ
  loggf : ℚ
  van_der_waals_broadening : ℚ
  equivalent_width : FV
deriving DecidableEq, Repr

/-- `self.atomic_transitions["equivalent_width"][transition_index] = v`. -/
def setEquivalentWidth : List Trans → ℕ → FV → List Trans
  | [], _, _ => []
  | t :: ts, 0, v => { t with equivalent_width := v } :: ts
  | t :: ts, n + 1, v => t :: setEquivalentWidth ts n v

/-! ## _update_compound_model (lines 269-305) -/

inductive ParamKind
  | amplitude
  | mean
  | stddev
deriving DecidableEq, Repr

/-- Parameter names of an astropy compound model with `n` components, in
iteration order: amplitude_0, mean_0, stddev_0, amplitude_1, ...,
stddev_(n-1).  A name is a kind together with its component number. -/
def paramNames (n : ℕ) : List (ParamKind × ℕ) :=
  (List.range n).flatMap (fun k => [(.amplitude, k), (.mean, k), (.stddev, k)])

/-- The value held by the loop variable `num` of `_update_compound_model`
after the loop over `param_names` finishes.  Each tie lambda reads `num`
when the fitter later evaluates it — a Python closure captures the
variable, not its value — so every tied stddev sees this final value, the
component number of the last parameter name. -/
def lambdaNum (n : ℕ) : ℕ := (paramNames n).foldl (fun _ p => p.2) 0

/-- A compound Gaussian absorption model: per-component amplitudes, means
(line centres) and stddevs. -/
structure CompoundModel where
  amplitudes : List ℚ
  means : List ℚ
  stddevs : List ℚ
deriving DecidableEq, Repr

def CompoundModel.mean (m : CompoundModel) (k : ℕ) : ℚ := m.means.getD k 0

def CompoundModel.stddev (m : CompoundModel) (k : ℕ) : ℚ := m.stddevs.getD k 0

/-- The value produced by the tie installed for a non-primary stddev
parameter: `lambda _: _.stddev_0 * getattr(compound_model,
"mean_{}".format(num)) / _.mean_0`, evaluated after the loop has finished,
when `num` holds `lambdaNum n`.  The component index `k` of the tied
parameter does not appear in the lambda body. -/
def tiedStddev (n : ℕ) (m : CompoundModel) (_k : ℕ) : ℚ :=
  m.stddev 0 * m.mean (lambdaNum n) / m.mean 0

/-- Modelled from the spec: the tie the claim describes,
stddev_k = stddev_0 * mean_k / mean_0. -/
def specTiedStddev (m : CompoundModel) (k : ℕ) : ℚ :=
  m.stddev 0 * m.mean k / m.mean 0

/-- Whether `_update_compound_model` fixes the mean of component `k`: the
primary mean is fixed when the wavelength tolerance is zero, every
non-primary mean is always fixed. -/
def meanFixed (wavelengthTolerance : ℚ) (k : ℕ) : Bool :=
  if k = 0 then decide (wavelengthTolerance = 0) else true

/-! ## Outlier-profile augmentation loop of fit_atomic_transitions
(lines 417-467) -/

/-- One Gaussian absorption component (amplitude, mean, stddev). -/
structure Gauss where
  amplitude : ℚ
  mean : ℚ
  stddev : ℚ
deriving DecidableEq, Repr

/-- The `while True` refitting loop.  The profile is the list of Gaussian
components.  The Levenberg-Marquardt fit `fit`, the refit trigger `trig`
(the fitted stddev sits at its upper bound, or the model is more than five
percent off the data at the line centre — it may depend on the component
count `j`) and the located outlier component `newComp` (placed at the
residual-maximizing pixel outside the exclusion zones) depend on the data
and the optimizer, so they are opaque parameters.  The counter `j` starts
at 1 and the loop breaks when `max_outlier_profiles == j` before checking
the trigger.  Fuel makes the while-loop total; `none` means the loop did
not finish within the given fuel. -/
def augmentLoop (fit : List Gauss → List Gauss) (trig : ℕ → List Gauss → Bool)
    (newComp : List Gauss → Gauss) (outlierModeling : Bool) (m : ℕ) :
    ℕ → ℕ → List Gauss → Option (List Gauss)
  | 0, _, _ => none
  | fuel + 1, j, p =>
    let pf := fit p
    if !outlierModeling || m == j then some pf
    else if trig j pf then
      augmentLoop fit trig newComp outlierModeling m fuel (j + 1) (pf ++ [newComp pf])
    else some pf

/-- The augmentation loop as entered by `fit_atomic_transitions`: `j = 1`,
with fuel `m` (enough for the count check `max_outlier_profiles == j` to
fire). -/
def fitProfileLoop (fit : List Gauss → List Gauss) (trig : ℕ → List Gauss → Bool)
    (newComp : List Gauss → Gauss) (outlierModeling : Bool) (m : ℕ)
    (p : List Gauss) : Option (List Gauss) :=
  augmentLoop fit trig newComp outlierModeling m m 1 p

/-! ## equalibrium_state (lines 788-921) -/

/-- One row of the measured-line record array built inside
`equalibrium_state` (`atomic_transitions_rec`). -/
structure LineRec where
  wavelength : ℚ
  species : ℚ
  excitation_potential : ℚ
  loggf : ℚ
  van_der_waals_broadening : ℚ
  damp2 : ℚ
  equivalent_width : FV
  abundance : FV
  is_filtered : Bool
  is_outlier : Bool
deriving DecidableEq, Repr

/-- The default transition filter:
`lambda x: (200 > x.equivalent_width > 5)` (a chained float comparison,
false for a NaN equivalent width). -/
def defaultFilterTransition (t : Trans) : Bool :=
  FV.gt (FV.fin 200) t.equivalent_width && FV.gt t.equivalent_width (FV.fin 5)

def mkLineRec (t : Trans) (filt : Bool) (ab : FV) : LineRec :=
  ⟨t.wavelength, t.species, t.excitation_potential, t.loggf,
    t.van_der_waals_broadening, 0, t.equivalent_width, ab, filt, false⟩

/-- Build the record array: abundances are computed by the synthesis call
for the filtered rows only (`returned` is its output, one value per
filtered row in order) and scattered back; every unfiltered row keeps an
abundance of NaN (`all_abundances` is initialised to NaN), and
`is_outlier` starts false everywhere. -/
def buildRecs (filterT : Trans → Bool) : List Trans → List ℚ → List LineRec
  | [], _ => []
  | t :: ts, ab =>
    if filterT t then
      match ab with
      | a :: abt => mkLineRec t true (FV.fin a) :: buildRecs filterT ts abt
      | [] => mkLineRec t true FV.nan :: buildRecs filterT ts []
    else mkLineRec t false FV.nan :: buildRecs filterT ts ab

/-- The opaque numeric environment of the equilibrium computation:
the transcendental library calls and the external solar-abundance table,
plus the input metallicity. -/
structure Env where
  logQ : ℚ → ℚ
  sqrtQ : ℚ → ℚ
  solar : ℚ → ℚ
  metallicity : ℚ

/-- `np.log(equivalent_width / wavelength)` for one row. -/
def rew (e : Env) (r : LineRec) : FV :=
  fvLog e.logQ (r.equivalent_width.div (FV.fin r.wavelength))

/-- The four diagnostics plus the regression lines and masks of one
iteration of the `while True` loop. -/
structure Diag where
  excitation : FV × FV
  ionisation_state : FV
  abundance_state : FV
  line_strength : FV × FV
  use : List Bool
  neutral : List Bool
  ionised : List Bool

/-- One evaluation of the diagnostics (the top of the loop body):
`use_lines`, the accumulated neutral and ionised masks, the
excitation-potential regression (neutral lines), the ionisation offset,
the mean abundance offset (used lines), and the reduced-equivalent-width
regression (neutral lines). -/
def computeDiag (e : Env) (recs : List LineRec) (nm im : List Bool) : Diag :=
  let use := recs.map (fun r => r.is_filtered && !r.is_outlier)
  let neutral := maskAnd nm use
  let ionised := maskAnd im use
  let ab := recs.map (·.abundance)
  let excp := recs.map (fun r => FV.fin r.excitation_potential)
  let exc := linregress (maskSelect neutral excp) (maskSelect neutral ab)
  let ion := FV.mean (maskSelect neutral ab) - FV.mean (maskSelect ionised ab)
  let abState := FV.mean ((maskSelect use recs).map
    (fun r => r.abundance - FV.fin (e.solar r.species + e.metallicity)))
  let rews := recs.map (rew e)
  let ls := linregress (maskSelect neutral rews) (maskSelect neutral ab)
  ⟨exc, ion, abState, ls, use, neutral, ionised⟩

/-- The state 4-vector of one iteration. -/
structure State4 where
  excitation_slope : FV
  ionisation_state : FV
  abundance_state : FV
  line_strength_slope : FV
deriving DecidableEq, Repr

def Diag.state (d : Diag) : State4 :=
  ⟨d.excitation.1, d.ionisation_state, d.abundance_state, d.line_strength.1⟩

/-- `atomic_transitions_rec["is_outlier"][use_lines] = flags`: walk the
rows, writing the next flag into each currently used row. -/
def applyFlags : List LineRec → List Bool → List LineRec
  | [], _ => []
  | r :: rs, fs =>
    if r.is_filtered && !r.is_outlier then
      match fs with
      | f :: ft => { r with is_outlier := f } :: applyFlags rs ft
      | [] => r :: applyFlags rs []
    else r :: applyFlags rs fs

/-- The absolute deviations of the used lines from the excitation
potential regression line (`np.abs(line - y)` with
`line = excitation_slope[0] * x + excitation_slope[1]`). -/
def excDeviations (_e : Env) (recs : List LineRec) (d : Diag) : List FV :=
  (maskSelect d.use recs).map (fun r =>
    FV.abs ((d.excitation.1 * FV.fin r.excitation_potential + d.excitation.2) - r.abundance))

/-- The absolute deviations of the used lines from the
reduced-equivalent-width regression line. -/
def lsDeviations (e : Env) (recs : List LineRec) (d : Diag) : List FV :=
  (maskSelect d.use recs).map (fun r =>
    FV.abs ((d.line_strength.1 * rew e r + d.line_strength.2) - r.abundance))

/-- The per-used-line outlier flags of the rejection branch: the absolute
deviation of each used line from the excitation regression line, divided
by the standard deviation of those deviations, and likewise for the
reduced-equivalent-width regression line; a line is flagged when either
normalized deviation exceeds the sigma limit. -/
def outlierFlags (e : Env) (limit : FV) (recs : List LineRec) (d : Diag) : List Bool :=
  List.zipWith
    (fun a b =>
      FV.gt (a.div (npStd e.sqrtQ (excDeviations e recs d))) limit ||
      FV.gt (b.div (npStd e.sqrtQ (lsDeviations e recs d))) limit)
    (excDeviations e recs d) (lsDeviations e recs d)

/-- One full rejection pass as a standalone table transformation: compute
the diagnostics, flag the outliers, and return the updated records and
accumulated masks. -/
def rejectionPass (e : Env) (limit : FV) (recs : List LineRec) (nm im : List Bool) :
    List LineRec × List Bool × List Bool :=
  let d := computeDiag e recs nm im
  (applyFlags recs (outlierFlags e limit recs d), d.neutral, d.ionised)

/-- The loop state of the `while True` loop. -/
structure LoopState where
  recs : List LineRec
  neutral : List Bool
  ionised : List Bool
  outliers_removed : Bool

/-- One iteration of the `while True` loop.  `Sum.inr` is a `break` with
the returned state and records, `Sum.inl` is the `continue` after
flagging.  The sigma clip limit is skipped (initial state returned) when
it is None, not finite, or not positive. -/
def eqIter (e : Env) (limit : Option FV) (st : LoopState) :
    LoopState ⊕ (State4 × List LineRec) :=
  let d := computeDiag e st.recs st.neutral st.ionised
  if st.outliers_removed then Sum.inr (d.state, st.recs)
  else
    match limit with
    | none => Sum.inr (d.state, st.recs)
    | some (FV.fin q) =>
      if q ≤ 0 then Sum.inr (d.state, st.recs)
      else
        Sum.inl ⟨applyFlags st.recs (outlierFlags e (FV.fin q) st.recs d),
          d.neutral, d.ionised, true⟩
    | some _ => Sum.inr (d.state, st.recs)

/-- Run the `while True` loop with fuel; `none` means the loop did not
break within the given fuel. -/
def eqRun (e : Env) (limit : Option FV) : ℕ → LoopState → Option (State4 × List LineRec)
  | 0, _ => none
  | fuel + 1, st =>
    match eqIter e limit st with
    | Sum.inr r => some r
    | Sum.inl st2 => eqRun e limit fuel st2

/-- The loop state on entry: records built from the table, the neutral
mask `species % 1 == 0`, its complement as the ionised mask, and
`outliers_removed = False`. -/
def initLoopState (filterT : Trans → Bool) (ts : List Trans) (returned : List ℚ) :
    LoopState :=
  let recs := buildRecs filterT ts returned
  let nm := recs.map (fun r => decide (fract r.species = 0))
  ⟨recs, nm, nm.map (fun b => !b), false⟩

/-- The diagnostic core of `equalibrium_state` (lines 788-921): filter the
measured transitions, scatter the synthesis abundances, and run the
outlier loop.  `limit` is the `outlier_sigma_clip` keyword (`some (fin 3)`
when not given, `none` when passed as Python None).  Returns the final
state and the record table, as with `full_output`. -/
def equalibrium_state (e : Env) (filterT : Trans → Bool) (limit : Option FV)
    (ts : List Trans) (returned : List ℚ) : Option (State4 × List LineRec) :=
  eqRun e limit 2 (initLoopState filterT ts returned)

/-! ## state_function inside estimate_stellar_parameters (lines 598-650) -/

/-- The crash raised when the state is not finite: `raise WTFError()` with
`WTFError` an undefined name, so Python raises a NameError. -/
inductive PyErr
  | nameErrorWTF
deriving DecidableEq, Repr

/-- One used line as seen by `state_function`: its excitation potential,
species, and precomputed reduced equivalent width. -/
structure UsedLine where
  excitation_potential : ℚ
  species : ℚ
  rew : FV
deriving DecidableEq, Repr

def State4.allFinite (s : State4) : Bool :=
  s.excitation_slope.isFinite && s.ionisation_state.isFinite &&
    s.abundance_state.isFinite && s.line_strength_slope.isFinite

/-- The objective function handed to `op.fsolve`.  The external synthesis
call `synthesis.atomic_abundances(transitions_table[use], x[:3],
microturbulence=x[3])` either raises ValueError (`Except.error`) or
returns one abundance per used line; on ValueError the function returns
`np.array([np.nan, np.nan, np.nan, np.nan])`.  Otherwise it computes the
four diagnostics (with the abundance offset scaled by 0.1) and raises the
undefined name `WTFError` when any entry is not finite. -/
def state_function (solar : ℚ → ℚ) (lines : List UsedLine) (x : ℚ × ℚ × ℚ × ℚ)
    (abundances : Except Unit (List FV)) : Except PyErr State4 :=
  match abundances with
  | .error _ => .ok ⟨FV.nan, FV.nan, FV.nan, FV.nan⟩
  | .ok ab =>
    let neutral := lines.map (fun l => decide (fract l.species = 0))
    let ionised := lines.map (fun l => decide (0 < fract l.species))
    let excSlope := (linregress
      (maskSelect neutral (lines.map (fun l => FV.fin l.excitation_potential)))
      (maskSelect neutral ab)).1
    let ion := FV.mean (maskSelect neutral ab) - FV.mean (maskSelect ionised ab)
    let metallicity := x.2.2.1
    let abundState := FV.mean ((ab.zip lines).map
      (fun p => p.1 - FV.fin (solar p.2.species + metallicity)))
    let lsSlope := (linregress (maskSelect neutral (lines.map (·.rew)))
      (maskSelect neutral ab)).1
    let st : State4 := ⟨excSlope, ion, FV.fin (1 / 10) * abundState, lsSlope⟩
    if !st.allFinite then .error .nameErrorWTF else .ok st

/-! ## _initialise_atomic_transitions (lines 117-151) -/

inductive ColName
  | wavelength
  | species
  | excitation_potential
  | loggf
  | equivalent_width
  | clean
  | abundance
  | custom_mask
  | extra (n : ℕ)
deriving DecidableEq, Repr

inductive Dtype
  | float64
  | boolean
  | string32
  | otherType (n : ℕ)
deriving DecidableEq, Repr

/-- A table column, identified by name and dtype (the values are not
relevant to the schema claims). -/
structure Column where
  name : ColName
  dtype : Dtype
deriving DecidableEq, Repr

/-- The derived columns the initialiser ensures, in loop order:
equivalent_width (float, NaN), clean (bool), abundance (float, NaN),
custom_mask (32-byte string). -/
def defaultColumns : List Column :=
  [⟨.equivalent_width, .float64⟩, ⟨.clean, .boolean⟩,
    ⟨.abundance, .float64⟩, ⟨.custom_mask, .string32⟩]

def requiredColumns : List ColName :=
  [.wavelength, .species, .excitation_potential, .loggf]

def hasCol (tbl : List Column) (n : ColName) : Bool :=
  tbl.any (fun c => c.name == n)

/-- The dtype of the (first) column with the given name. -/
def colDtype (tbl : List Column) (n : ColName) : Option Dtype :=
  (tbl.find? (fun c => c.name == n)).map (·.dtype)

/-- One step of the initialiser loop: a missing column is appended; a
present column with a different dtype is removed and re-added (at the end)
with the schema dtype; a present column with the schema dtype is kept. -/
def addOrFixColumn (tbl : List Column) (c : Column) : List Column :=
  if !hasCol tbl c.name then tbl ++ [c]
  else
    match colDtype tbl c.name with
    | some d =>
      if d ≠ c.dtype then (tbl.eraseP (fun x => x.name == c.name)) ++ [c] else tbl
    | none => tbl

/-- `_initialise_atomic_transitions` on an in-memory table: check the
required columns (raising, with the missing name, when one is absent) and
run the derived-column loop. -/
def initialise_atomic_transitions (tbl : List Column) : Except ColName (List Column) :=
  match requiredColumns.find? (fun n => !hasCol tbl n) with
  | some n => .error n
  | none => .ok (defaultColumns.foldl addOrFixColumn tbl)

/-! ## fit_atomic_transitions batch control flow (lines 308-378) -/

/-- A detector channel, reduced to its dispersion range (the code only
reads `disp[0]` and `disp[-1]` to locate lines). -/
structure Spectrum where
  dispFirst : ℚ
  dispLast : ℚ
deriving DecidableEq, Repr

/-- A transition row as read by the batch control flow. -/
structure TransRow where
  wavelength : ℚ
  clean : Bool
deriving DecidableEq, Repr

/-- `wavelengths_in_data`: for each wavelength, the index of the last
channel whose dispersion range contains it, or -1. -/
def wavelengths_in_data (wavelengths : List ℚ) (data : List Spectrum) : List ℤ :=
  data.enum.foldl
    (fun orders p =>
      List.zipWith
        (fun w o => if p.2.dispFirst ≤ w ∧ w ≤ p.2.dispLast then (p.1 : ℤ) else o)
        wavelengths orders)
    (wavelengths.map (fun _ => (-1 : ℤ)))

/-- The measurable mask: clean transitions that were found in the data. -/
def measurableMask (rows : List TransRow) (data : List Spectrum) : List Bool :=
  List.zipWith (fun (r : TransRow) o => r.clean && decide ((-1 : ℤ) < o))
    rows (wavelengths_in_data (rows.map (·.wavelength)) data)

/-- Whether transition `i` has any other catalogued line within the
wavelength region (`blending`, with its own index cleared). -/
def blendingAny (rows : List TransRow) (i : ℕ) (region : ℚ) : Bool :=
  match rows[i]? with
  | none => false
  | some t => rows.enum.any
      (fun p => decide (p.1 ≠ i) && decide (|t.wavelength - p.2.wavelength| ≤ region))

inductive FitError
  | blendsWithoutStellarParameters (wavelength : ℚ)
deriving DecidableEq, Repr

/-- `None not in (effective_temperature, surface_gravity, metallicity)`:
the photosphere is interpolated only when all three are given. -/
def interpolatedPhotosphere (teff logg mh : Option ℚ) : Option (ℚ × ℚ × ℚ) :=
  match teff, logg, mh with
  | some a, some b, some c => some (a, b, c)
  | _, _, _ => none

/-- The per-transition loop of `fit_atomic_transitions`, reduced to the
control flow that decides the batch outcome: for each measurable index in
order, a transition with blending neighbours needs the photosphere, and
without one the loop raises ValueError, aborting the batch.  The numeric
profile fit is external; the result collects the processed indices. -/
def fitBatchGo (rows : List TransRow) (region : ℚ) (phot : Option (ℚ × ℚ × ℚ)) :
    List ℕ → Except FitError (List ℕ)
  | [] => .ok []
  | i :: rest =>
    match rows[i]? with
    | none => fitBatchGo rows region phot rest
    | some t =>
      if blendingAny rows i region ∧ phot = none then
        .error (.blendsWithoutStellarParameters t.wavelength)
      else
        (fitBatchGo rows region phot rest).map (fun l => i :: l)

/-- The batch: compute the measurable subset and run the loop over its
indices. -/
def fit_atomic_transitions_batch (rows : List TransRow) (data : List Spectrum)
    (region : ℚ) (teff logg mh : Option ℚ) : Except FitError (List ℕ) :=
  fitBatchGo rows region (interpolatedPhotosphere teff logg mh)
    (maskSelect (measurableMask rows data) (List.range rows.length))

/-! ## Auxiliary definitions for the claims -/

/-- A sigma clip value for which the rejection branch is skipped: Python
None, a value that is not finite, or a non-positive value (the test
`outlier_limit is None or not np.isfinite(outlier_limit) or
0 >= outlier_limit`). -/
def limitSkipsRejection : Option FV → Bool
  | none => true
  | some (FV.fin q) => decide (q ≤ 0)
  | some _ => true

/-- The x-values of the neutral-line excitation regression set on the
first iteration of the outlier loop. -/
def initialNeutralRegressionXs (filterT : Trans → Bool) (ts : List Trans)
    (returned : List ℚ) : List FV :=
  let st := initLoopState filterT ts returned
  let use := st.recs.map (fun r => r.is_filtered && !r.is_outlier)
  maskSelect (maskAnd st.neutral use)
    (st.recs.map (fun r => FV.fin r.excitation_potential))

/-- A three-component compound model (primary plus two outlier profiles)
with distinct line centres. -/
def bugModel : CompoundModel := ⟨[1, 1, 1], [1, 2, 4], [1, 1, 1]⟩

/-- A five-line table of clean neutral iron lines: excitation potentials
5, 3, 1, 2, 1 eV, all with measured equivalent width 10 mA. -/
def ts7 : List Trans :=
  [⟨5000, 26, 5, 0, 0, FV.fin 10⟩,
   ⟨5000, 26, 3, 0, 0, FV.fin 10⟩,
   ⟨5000, 26, 1, 0, 0, FV.fin 10⟩,
   ⟨5000, 26, 2, 0, 0, FV.fin 10⟩,
   ⟨5000, 26, 1, 0, 0, FV.fin 10⟩]

/-- A concrete numeric environment: the rows of `ts7` share one
equivalent width and wavelength, so the only log value ever taken is
log(10/5000), represented by 0; the square root is the exact rational
square root (all variances reached on this data are perfect squares). -/
def env7 : Env := ⟨fun _ => 0, ratSqrt, fun _ => 0, 0⟩

/-- The records of `ts7` with synthesis abundances 1, -1, 2, -2, 12. -/
def recs7 : List LineRec := buildRecs defaultFilterTransition ts7 [1, -1, 2, -2, 12]

def nm7 : List Bool := recs7.map (fun r => decide (fract r.species = 0))

def im7 : List Bool := nm7.map (fun b => !b)

/-- One application of the rejection pass to the `ts7` data. -/
def pass7a : List LineRec × List Bool × List Bool :=
  rejectionPass env7 (FV.fin 3) recs7 nm7 im7

/-- A second application of the rejection pass, on the output of the
first. -/
def pass7b : List LineRec × List Bool × List Bool :=
  rejectionPass env7 (FV.fin 3) pass7a.1 pass7a.2.1 pass7a.2.2

/-- A two-line table of clean neutral lines with equal excitation
potentials (zero spread) and measured equivalent widths inside the
default filter range. -/
def ts2c : List Trans :=
  [⟨5000, 26, 1, 0, 0, FV.fin 10⟩, ⟨5000, 26, 1, 0, 0, FV.fin 10⟩]

/-- A two-line table of clean neutral lines with distinct excitation
potentials and distinct equivalent widths. -/
def tsW : List Trans :=
  [⟨5000, 26, 1, 0, 0, FV.fin 10⟩, ⟨5000, 26, 2, 0, 0, FV.fin 20⟩]

/-- A numeric environment whose log parameter separates the two reduced
equivalent widths of `tsW`. -/
def envW : Env := ⟨fun q => q, ratSqrt, fun _ => 0, 0⟩

def recsW : List LineRec := buildRecs defaultFilterTransition tsW [1, 2]

def nmW : List Bool := recsW.map (fun r => decide (fract r.species = 0))

def imW : List Bool := nmW.map (fun b => !b)

def diagW : Diag := computeDiag envW recsW nmW imW

/-! ## Theorems -/

theorem setEquivalentWidth_get (table : List Trans) (i : ℕ) (v : FV)
    (h : i < table.length) :
    (setEquivalentWidth table i v).get? i =
      some { table.get ⟨i, h⟩ with equivalent_width := v } := by
  induction table generalizing i with
  | nil => simp at h
  | cons t ts ih =>
    cases i with
    | zero => rfl
    | succ n =>
      simpa [setEquivalentWidth] using ih n (by simpa using h)

/-- Claim C1: the equivalent width written into the atomic transition
table for a fitted transition equals 10 to the 4 times sqrt(pi) times the
fitted amplitude times 0.25 times the fitted stddev (in milliAngstrom): the
code constant 10e3 (the float 10000.0) is exactly 10 to the 4, so for a
clean Gaussian line whose fit recovers amplitude A and stddev sigma the
recorded equivalent width is exactly the spec formula. -/
theorem c1_equivalent_width_formula (table : List Trans) (i : ℕ)
    (sqrtPi a s : ℚ) (h : i < table.length) :
    fittedEquivalentWidth sqrtPi a s = specEquivalentWidth sqrtPi a s ∧
    (setEquivalentWidth table i (FV.fin (fittedEquivalentWidth sqrtPi a s))).get? i =
      some { table.get ⟨i, h⟩ with
              equivalent_width := FV.fin (specEquivalentWidth sqrtPi a s) } := by
  have hf : fittedEquivalentWidth sqrtPi a s = specEquivalentWidth sqrtPi a s := by
    unfold fittedEquivalentWidth specEquivalentWidth
    norm_num
  exact ⟨hf, hf ▸ setEquivalentWidth_get table i _ h⟩

theorem c1_equivalent_width_formula_witness :
    fittedEquivalentWidth 1 1 1 = specEquivalentWidth 1 1 1 ∧
    (setEquivalentWidth [⟨1, 26, 0, 0, 0, FV.nan⟩] 0
        (FV.fin (fittedEquivalentWidth 1 1 1))).get? 0 =
      some { (⟨1, 26, 0, 0, 0, FV.nan⟩ : Trans) with
              equivalent_width := FV.fin (specEquivalentWidth 1 1 1) } :=
  c1_equivalent_width_formula [⟨1, 26, 0, 0, 0, FV.nan⟩] 0 1 1 1 (by decide)

/-- Claim C5: refuted on the code for models with three or more
components.  The tie lambda reads the loop variable num at call time
(after the loop it holds the component number of the last parameter), so
the stddev of outlier component 1 in a three-component model is tied to
stddev_0 * mean_2 / mean_0 — the last component's mean — not to its own
mean as the claim (and the comment in the code) state.  Outlier means are
fixed as claimed, and for the last outlier component the tie agrees with
the claim by coincidence. -/
theorem c5_tied_stddev_late_binding :
    lambdaNum 3 = 2 ∧
    tiedStddev 3 bugModel 1 =
      bugModel.stddev 0 * bugModel.mean 2 / bugModel.mean 0 ∧
    tiedStddev 3 bugModel 1 = 4 ∧
    specTiedStddev bugModel 1 = 2 ∧
    ¬ tiedStddev 3 bugModel 1 = specTiedStddev bugModel 1 ∧
    tiedStddev 3 bugModel 2 = specTiedStddev bugModel 2 ∧
    meanFixed 0 1 = true ∧ meanFixed 0 2 = true := by
  with_unfolding_all decide

/-- Claim C3 (amended): when the abundance computation at a trial point
raises ValueError, `state_function` catches it and returns the 4-vector
(NaN, NaN, NaN, NaN) — a sentinel, but not a finite one — without
raising. -/
theorem c3_nan_sentinel (solar : ℚ → ℚ) (lines : List UsedLine)
    (x : ℚ × ℚ × ℚ × ℚ) (e : Unit) :
    state_function solar lines x (.error e) =
      .ok ⟨FV.nan, FV.nan, FV.nan, FV.nan⟩ ∧
    (State4.mk FV.nan FV.nan FV.nan FV.nan).allFinite = false :=
  ⟨rfl, rfl⟩

/-- Claim C3: refuted as stated.  At a trial point where the abundance
computation fails, the objective returns the all-NaN 4-vector, which is
not a finite sentinel. -/
theorem c3_counterexample :
    state_function (fun _ => 0) [] (0, 0, 0, 0) (.error ()) =
      .ok ⟨FV.nan, FV.nan, FV.nan, FV.nan⟩ ∧
    ((State4.mk FV.nan FV.nan FV.nan FV.nan).allFinite = true → False) :=
  ⟨rfl, by decide⟩

theorem augmentLoop_total (fit : List Gauss → List Gauss)
    (trig : ℕ → List Gauss → Bool) (newComp : List Gauss → Gauss) (m : ℕ)
    (hfit : ∀ p, (fit p).length = p.length) :
    ∀ fuel j p, j ≤ m → m - j < fuel →
      ∃ r, augmentLoop fit trig newComp true m fuel j p = some r ∧
        r.length ≤ p.length + (m - j) := by
  intro fuel
  induction fuel with
  | zero => intro j p hj hf; omega
  | succ fuel ih =>
    intro j p hj hf
    by_cases hm : m = j
    · refine ⟨fit p, ?_, ?_⟩
      · simp [augmentLoop, hm]
      · rw [hfit]; omega
    · have hmj : (m == j) = false := by simp [hm]
      by_cases ht : trig j (fit p) = true
      · have hj2 : j + 1 ≤ m := by omega
        have hf2 : m - (j + 1) < fuel := by omega
        obtain ⟨r, hr, hlen⟩ := ih (j + 1) (fit p ++ [newComp (fit p)]) hj2 hf2
        refine ⟨r, ?_, ?_⟩
        · simp only [augmentLoop, hmj, ht, Bool.not_true, Bool.false_or, if_false,
            if_true]
          exact hr
        · have := hfit p
          simp at hlen
          omega
      · refine ⟨fit p, ?_, ?_⟩
        · simp [augmentLoop, hmj, ht]
        · rw [hfit]; omega

/-- Claim C6: with outlier modeling enabled and a positive maximum
profile count m, the augmentation loop always terminates (fuel m
suffices), it adds at most m extra Gaussian components (the code in fact
adds at most m - 1, because the count check `max_outlier_profiles == j`
runs before the trigger check and j counts the primary component), and it
stops immediately after a fit for which neither trigger condition holds. -/
theorem c6_augmentation_bounded (fit : List Gauss → List Gauss)
    (trig : ℕ → List Gauss → Bool) (newComp : List Gauss → Gauss)
    (m : ℕ) (p : List Gauss) (hm : 1 ≤ m)
    (hfit : ∀ q, (fit q).length = q.length) :
    (∃ r, fitProfileLoop fit trig newComp true m p = some r ∧
       r.length ≤ p.length + (m - 1) ∧ r.length ≤ p.length + m) ∧
    (trig 1 (fit p) = false →
      fitProfileLoop fit trig newComp true m p = some (fit p)) := by
  constructor
  · obtain ⟨r, hr, hlen⟩ :=
      augmentLoop_total fit trig newComp m hfit m 1 p hm (by omega)
    exact ⟨r, hr, hlen, by omega⟩
  · intro htrig
    unfold fitProfileLoop
    obtain ⟨fuel, rfl⟩ : ∃ fuel, m = fuel + 1 := ⟨m - 1, by omega⟩
    by_cases hm1 : fuel + 1 = 1
    · simp [augmentLoop, hm1]
    · have : ((fuel + 1 : ℕ) == 1) = false := by
        simp only [beq_eq_false_iff_ne, ne_eq]
        omega
      simp [augmentLoop, this, htrig]

theorem fv_add_def (a b : FV) : a + b = FV.add a b := rfl

theorem fv_sub_def (a b : FV) : a - b = FV.add a (FV.neg b) := rfl

theorem fv_mul_def (a b : FV) : a * b = FV.mul a b := rfl

theorem fv_mean_nil : FV.mean ([] : List FV) = FV.nan := by
  with_unfolding_all decide

theorem fv_div_fin_fin (a b : ℚ) (hb : b ≠ 0) :
    FV.div (FV.fin a) (FV.fin b) = FV.fin (a / b) := by
  simp [FV.div, hb]

theorem fv_foldl_add_const (c : ℚ) :
    ∀ (l : List FV), (∀ v ∈ l, v = FV.fin c) →
      ∀ a : ℚ, l.foldl FV.add (FV.fin a) = FV.fin (a + l.length * c) := by
  intro l
  induction l with
  | nil => intro _ a; simp
  | cons x xs ih =>
    intro h a
    have hx : x = FV.fin c := h x (by simp)
    subst hx
    have hadd : FV.add (FV.fin a) (FV.fin c) = FV.fin (a + c) := rfl
    rw [List.foldl_cons, hadd, ih (fun v hv => h v (by simp [hv]))]
    congr 1
    simp only [List.length_cons]
    push_cast
    ring

theorem fv_sum_const (c : ℚ) (l : List FV) (h : ∀ v ∈ l, v = FV.fin c) :
    FV.sum l = FV.fin (l.length * c) := by
  have h2 := fv_foldl_add_const c l h 0
  simpa [FV.sum] using h2

theorem fv_mean_const (c : ℚ) (l : List FV) (hne : l ≠ [])
    (h : ∀ v ∈ l, v = FV.fin c) : FV.mean l = FV.fin c := by
  have hlen : l.length ≠ 0 := fun h0 => hne (List.length_eq_zero.mp h0)
  have hl : ((l.length : ℚ)) ≠ 0 := by exact_mod_cast hlen
  unfold FV.mean
  rw [fv_sum_const c l h]
  have hdiv : FV.div (FV.fin ((l.length : ℚ) * c)) (FV.fin (l.length : ℚ)) =
      FV.fin ((l.length : ℚ) * c / l.length) := by
    simp [FV.div, hl]
  rw [hdiv]
  congr 1
  field_simp

theorem fv_zero_mul_or (z : FV) :
    (FV.fin 0).mul z = FV.fin 0 ∨ (FV.fin 0).mul z = FV.nan := by
  cases z with
  | nan => right; rfl
  | inf => right; simp [FV.mul]
  | ninf => right; simp [FV.mul]
  | fin q => left; simp [FV.mul]

theorem fv_foldl_add_zero_nan :
    ∀ (l : List FV) (a : FV), (a = FV.fin 0 ∨ a = FV.nan) →
      (∀ v ∈ l, v = FV.fin 0 ∨ v = FV.nan) →
      (l.foldl FV.add a = FV.fin 0 ∨ l.foldl FV.add a = FV.nan) := by
  intro l
  induction l with
  | nil => intro a ha _; exact ha
  | cons x xs ih =>
    intro a ha h
    have hx := h x (by simp)
    have hstep : FV.add a x = FV.fin 0 ∨ FV.add a x = FV.nan := by
      rcases ha with rfl | rfl <;> rcases hx with rfl | rfl <;> simp [FV.add]
    exact ih _ hstep (fun v hv => h v (by simp [hv]))

theorem fv_mean_zero_nan (l : List FV) (h : ∀ v ∈ l, v = FV.fin 0 ∨ v = FV.nan) :
    FV.mean l = FV.fin 0 ∨ FV.mean l = FV.nan := by
  rcases l with _ | ⟨x, xs⟩
  · right; exact fv_mean_nil
  · have hsum := fv_foldl_add_zero_nan (x :: xs) (FV.fin 0) (Or.inl rfl) h
    have hl0 : (x :: xs : List FV).length ≠ 0 := by simp
    have hl : (((x :: xs).length : ℚ)) ≠ 0 := Nat.cast_ne_zero.mpr hl0
    unfold FV.mean FV.sum
    rcases hsum with h0 | hn
    · left
      rw [h0, fv_div_fin_fin _ _ hl]
      simp
    · right
      rw [hn]
      rfl

theorem fv_div_fin_zero (x : FV) (hx : x = FV.fin 0 ∨ x = FV.nan) :
    x.div (FV.fin 0) = FV.nan := by
  rcases hx with rfl | rfl
  · simp [FV.div]
  · rfl

theorem linregress_fst (xs ys : List FV) :
    (linregress xs ys).1 =
      (FV.mean ((xs.zip ys).map
        (fun xy => (xy.1 - FV.mean xs) * (xy.2 - FV.mean ys)))).div
        (FV.mean (xs.map (fun x => (x - FV.mean xs) * (x - FV.mean xs)))) := rfl

/-- A regression set with all x-values equal (in particular any set with
fewer than two points) has an undefined slope: the mean squared
x-deviation is zero (or NaN for the empty set) and the slope is the NaN
of 0/0. -/
theorem linregress_const_x (c : ℚ) (xs ys : List FV)
    (h : ∀ v ∈ xs, v = FV.fin c) : (linregress xs ys).1 = FV.nan := by
  cases xs with
  | nil =>
    rw [linregress_fst]
    simp only [List.zip_nil_left, List.map_nil, fv_mean_nil]
    rfl
  | cons x xt =>
    rw [linregress_fst]
    have hne : (x :: xt : List FV) ≠ [] := by simp
    have hxm : FV.mean (x :: xt) = FV.fin c := fv_mean_const c _ hne h
    have hsubz : FV.fin c - FV.fin c = FV.fin 0 := by
      rw [fv_sub_def]
      show FV.add (FV.fin c) (FV.fin (-c)) = FV.fin 0
      simp [FV.add]
    have hssxm : FV.mean ((x :: xt).map
        (fun v => (v - FV.mean (x :: xt)) * (v - FV.mean (x :: xt)))) = FV.fin 0 := by
      refine fv_mean_const 0 _ (by simp) ?_
      intro v hv
      obtain ⟨w, hw, rfl⟩ := List.mem_map.mp hv
      rw [h w hw, hxm, hsubz, fv_mul_def]
      simp [FV.mul]
    have hzipz : ∀ v ∈ ((x :: xt).zip ys).map
        (fun xy => (xy.1 - FV.mean (x :: xt)) * (xy.2 - FV.mean ys)),
        v = FV.fin 0 ∨ v = FV.nan := by
      intro v hv
      obtain ⟨⟨a, b⟩, hab, rfl⟩ := List.mem_map.mp hv
      have ha : a ∈ (x :: xt : List FV) := (List.of_mem_zip hab).1
      rw [h a ha, hxm, hsubz, fv_mul_def]
      exact fv_zero_mul_or _
    rw [hssxm]
    exact fv_div_fin_zero _ (fv_mean_zero_nan _ hzipz)

theorem maskSelect_nil_mask (l : List α) : maskSelect ([] : List Bool) l = [] := rfl

theorem maskSelect_cons (m : Bool) (ms : List Bool) (x : α) (xs : List α) :
    maskSelect (m :: ms) (x :: xs) =
      if m then x :: maskSelect ms xs else maskSelect ms xs := by
  unfold maskSelect
  rw [List.zip_cons_cons, List.filter_cons]
  cases m <;> simp

theorem mem_maskSelect_maskAnd (m1 m2 : List Bool) (l : List α) (a : α)
    (h : a ∈ maskSelect (maskAnd m1 m2) l) : a ∈ maskSelect m1 l := by
  induction l generalizing m1 m2 with
  | nil =>
    cases m1 <;> cases m2 <;> simp_all [maskSelect, maskAnd]
  | cons x xs ih =>
    cases m1 with
    | nil => simp_all [maskSelect, maskAnd]
    | cons b1 t1 =>
      cases m2 with
      | nil => simp_all [maskSelect, maskAnd]
      | cons b2 t2 =>
        have hm : maskAnd (b1 :: t1) (b2 :: t2) = (b1 && b2) :: maskAnd t1 t2 := rfl
        rw [hm, maskSelect_cons] at h
        rw [maskSelect_cons]
        cases hb1 : b1 with
        | false =>
          simp only [hb1, Bool.false_and, if_false] at h ⊢
          exact ih t1 t2 h
        | true =>
          cases hb2 : b2 with
          | false =>
            simp only [hb1, hb2, Bool.true_and, if_false, if_true] at h ⊢
            exact List.mem_cons_of_mem x (ih t1 t2 h)
          | true =>
            simp only [hb1, hb2, Bool.true_and, if_true] at h ⊢
            rcases List.mem_cons.mp h with rfl | htail
            · exact List.mem_cons_self _ _
            · exact List.mem_cons_of_mem x (ih t1 t2 htail)

theorem applyFlags_map_excp (recs : List LineRec) (fs : List Bool) :
    (applyFlags recs fs).map (fun r => FV.fin r.excitation_potential) =
      recs.map (fun r => FV.fin r.excitation_potential) := by
  induction recs generalizing fs with
  | nil => rfl
  | cons r rs ih =>
    by_cases hc : (r.is_filtered && !r.is_outlier) = true
    · cases fs with
      | nil => simp [applyFlags, hc, ih]
      | cons f ft => simp [applyFlags, hc, ih]
    · simp [applyFlags, hc, ih]

theorem eqIter_removed (e : Env) (limit : Option FV) (st : LoopState)
    (h : st.outliers_removed = true) :
    eqIter e limit st =
      Sum.inr ((computeDiag e st.recs st.neutral st.ionised).state, st.recs) := by
  unfold eqIter
  simp [h]

theorem eqIter_not_removed_valid (e : Env) (q : ℚ) (hq : 0 < q) (st : LoopState)
    (h0 : st.outliers_removed = false) :
    eqIter e (some (FV.fin q)) st =
      Sum.inl ⟨applyFlags st.recs (outlierFlags e (FV.fin q) st.recs
          (computeDiag e st.recs st.neutral st.ionised)),
        (computeDiag e st.recs st.neutral st.ionised).neutral,
        (computeDiag e st.recs st.neutral st.ionised).ionised, true⟩ := by
  unfold eqIter
  simp [h0, not_le.mpr hq]

theorem eqIter_not_removed_skip (e : Env) (limit : Option FV) (st : LoopState)
    (h0 : st.outliers_removed = false) (hskip : limitSkipsRejection limit = true) :
    eqIter e limit st =
      Sum.inr ((computeDiag e st.recs st.neutral st.ionised).state, st.recs) := by
  unfold eqIter
  rcases limit with _ | v
  · simp [h0]
  · rcases v with _ | _ | _ | q
    · simp [h0]
    · simp [h0]
    · simp [h0]
    · have hq : q ≤ 0 := by simpa [limitSkipsRejection] using hskip
      simp [h0, hq]

theorem eqIter_inl_removed (e : Env) (limit : Option FV) (st st2 : LoopState)
    (h : eqIter e limit st = Sum.inl st2) : st2.outliers_removed = true := by
  by_cases h0 : st.outliers_removed = true
  · rw [eqIter_removed e limit st h0] at h
    exact absurd h (by simp)
  · have h0' : st.outliers_removed = false := by
      simpa using h0
    unfold eqIter at h
    rcases limit with _ | v
    · simp [h0'] at h
    · rcases v with _ | _ | _ | q
      · simp [h0'] at h
      · simp [h0'] at h
      · simp [h0'] at h
      · by_cases hq : q ≤ 0
        · simp [h0', hq] at h
        · simp [h0', hq] at h
          rw [← h]

theorem eqRun_succ (e : Env) (limit : Option FV) (f : ℕ) (st : LoopState) :
    eqRun e limit (f + 1) st =
      (match eqIter e limit st with
       | Sum.inr r => some r
       | Sum.inl st2 => eqRun e limit f st2) := rfl

theorem eqRun_succ_of_break (e : Env) (limit : Option FV) (f : ℕ) (st : LoopState)
    (r : State4 × List LineRec) (h : eqIter e limit st = Sum.inr r) :
    eqRun e limit (f + 1) st = some r := by
  rw [eqRun_succ, h]

theorem eqRun_fuel_stable (e : Env) (limit : Option FV) (fuel : ℕ) (st : LoopState) :
    eqRun e limit (fuel + 2) st = eqRun e limit 2 st := by
  cases h : eqIter e limit st with
  | inr r =>
    rw [eqRun_succ_of_break e limit (fuel + 1) st r h,
      eqRun_succ_of_break e limit 1 st r h]
  | inl st2 =>
    have h2 : st2.outliers_removed = true := eqIter_inl_removed e limit st st2 h
    have h3 := eqIter_removed e limit st2 h2
    have hl : eqRun e limit (fuel + 2) st = eqRun e limit (fuel + 1) st2 := by
      rw [eqRun_succ, h]
    have hr : eqRun e limit 2 st = eqRun e limit 1 st2 := by
      rw [eqRun_succ, h]
    rw [hl, hr, eqRun_succ_of_break e limit fuel st2 _ h3,
      eqRun_succ_of_break e limit 0 st2 _ h3]

theorem eqRun_two_valid (e : Env) (q : ℚ) (hq : 0 < q) (st : LoopState)
    (h0 : st.outliers_removed = false) :
    eqRun e (some (FV.fin q)) 2 st =
      (let d := computeDiag e st.recs st.neutral st.ionised
       let recs2 := applyFlags st.recs (outlierFlags e (FV.fin q) st.recs d)
       some ((computeDiag e recs2 d.neutral d.ionised).state, recs2)) := by
  rw [eqRun_succ, eqIter_not_removed_valid e q hq st h0]
  show eqRun e (some (FV.fin q)) 1 _ = _
  rw [eqRun_succ_of_break e (some (FV.fin q)) 0 _ _ (eqIter_removed _ _ _ rfl)]

theorem eqRun_two_skip (e : Env) (limit : Option FV) (st : LoopState)
    (h0 : st.outliers_removed = false) (hskip : limitSkipsRejection limit = true) :
    eqRun e limit 2 st =
      some ((computeDiag e st.recs st.neutral st.ionised).state, st.recs) :=
  eqRun_succ_of_break e limit 1 st _ (eqIter_not_removed_skip e limit st h0 hskip)

theorem fv_div_gt_mul (d : FV) (s L : ℚ) (hs : 0 ≤ s) (_hL : 0 < L) :
    FV.gt (d.div (FV.fin s)) (FV.fin L) = FV.gt d (FV.fin (L * s)) := by
  rcases d with _ | _ | _ | a
  · rfl
  · have hdiv : FV.div FV.inf (FV.fin s) = FV.inf := by simp [FV.div, hs]
    rw [FV.gt, FV.gt, hdiv]
    rfl
  · have hdiv : FV.div FV.ninf (FV.fin s) = FV.ninf := by simp [FV.div, hs]
    rw [FV.gt, FV.gt, hdiv]
    rfl
  · by_cases h0 : s = 0
    · subst h0
      rw [mul_zero]
      rcases lt_trichotomy a 0 with hneg | rfl | hpos
      · have hdiv : FV.div (FV.fin a) (FV.fin 0) = FV.ninf := by
          simp [FV.div, hneg, not_lt.mpr hneg.le, hneg.ne]
        rw [FV.gt, FV.gt, hdiv]
        show false = FV.lt (FV.fin 0) (FV.fin a)
        show false = decide ((0 : ℚ) < a)
        simp [not_lt.mpr hneg.le]
      · have hdiv : FV.div (FV.fin 0) (FV.fin 0) = FV.nan := by
          simp [FV.div]
        rw [FV.gt, FV.gt, hdiv]
        show false = decide ((0 : ℚ) < 0)
        simp
      · have hdiv : FV.div (FV.fin a) (FV.fin 0) = FV.inf := by
          simp [FV.div, hpos]
        rw [FV.gt, FV.gt, hdiv]
        show true = decide ((0 : ℚ) < a)
        simp [hpos]
    · have hs' : 0 < s := hs.lt_of_ne (Ne.symm h0)
      have hdiv : FV.div (FV.fin a) (FV.fin s) = FV.fin (a / s) := by
        simp [FV.div, h0]
      rw [FV.gt, FV.gt, hdiv]
      show decide (L < a / s) = decide (L * s < a)
      rw [decide_eq_decide]
      exact lt_div_iff₀ hs'

theorem outlierFlags_spec (e : Env) (q sE sL : ℚ) (recs : List LineRec) (d : Diag)
    (hq : 0 < q) (hsE : 0 ≤ sE) (hsL : 0 ≤ sL)
    (hE : npStd e.sqrtQ (excDeviations e recs d) = FV.fin sE)
    (hLs : npStd e.sqrtQ (lsDeviations e recs d) = FV.fin sL) :
    outlierFlags e (FV.fin q) recs d =
      List.zipWith (fun a b => FV.gt a (FV.fin (q * sE)) || FV.gt b (FV.fin (q * sL)))
        (excDeviations e recs d) (lsDeviations e recs d) := by
  unfold outlierFlags
  rw [hE, hLs]
  have hfun : (fun a b => FV.gt (a.div (FV.fin sE)) (FV.fin q) ||
      FV.gt (b.div (FV.fin sL)) (FV.fin q)) =
      (fun a b => FV.gt a (FV.fin (q * sE)) || FV.gt b (FV.fin (q * sL))) := by
    funext a b
    rw [fv_div_gt_mul a sE q hsE hq, fv_div_gt_mul b sL q hsL hq]
  rw [hfun]

theorem computeDiag_excitation_slope (e : Env) (recs : List LineRec)
    (nm im : List Bool) :
    (computeDiag e recs nm im).state.excitation_slope =
      (linregress
        (maskSelect (maskAnd nm (recs.map (fun r => r.is_filtered && !r.is_outlier)))
          (recs.map (fun r => FV.fin r.excitation_potential)))
        (maskSelect (maskAnd nm (recs.map (fun r => r.is_filtered && !r.is_outlier)))
          (recs.map (fun r => r.abundance)))).1 := rfl

/-- Claim C4: in `equalibrium_state`, a positive finite sigma threshold
runs exactly one rejection pass — the loop terminates for every fuel at
the same answer, the answer is the diagnostics recomputed once on the
flag-updated records — a used line is flagged exactly when its absolute
deviation from either regression line exceeds the threshold times the
standard deviation of that deviation set (stated here for deviation sets
whose standard deviation is a finite nonnegative value), and a threshold
that is None, non-finite, or non-positive skips rejection entirely and
returns the initial diagnostics. -/
theorem c4_one_rejection_pass (e : Env) (filterT : Trans → Bool)
    (ts : List Trans) (returned : List ℚ) :
    (∀ q : ℚ, 0 < q →
      (∀ fuel : ℕ,
        eqRun e (some (FV.fin q)) (fuel + 2) (initLoopState filterT ts returned) =
          equalibrium_state e filterT (some (FV.fin q)) ts returned) ∧
      equalibrium_state e filterT (some (FV.fin q)) ts returned =
        (let st0 := initLoopState filterT ts returned
         let d := computeDiag e st0.recs st0.neutral st0.ionised
         let recs2 := applyFlags st0.recs (outlierFlags e (FV.fin q) st0.recs d)
         some ((computeDiag e recs2 d.neutral d.ionised).state, recs2))) ∧
    (∀ limit : Option FV, limitSkipsRejection limit = true →
      equalibrium_state e filterT limit ts returned =
        (let st0 := initLoopState filterT ts returned
         some ((computeDiag e st0.recs st0.neutral st0.ionised).state, st0.recs))) ∧
    (∀ q sE sL : ℚ, 0 < q → 0 ≤ sE → 0 ≤ sL →
      ∀ recs : List LineRec, ∀ d : Diag,
      npStd e.sqrtQ (excDeviations e recs d) = FV.fin sE →
      npStd e.sqrtQ (lsDeviations e recs d) = FV.fin sL →
      outlierFlags e (FV.fin q) recs d =
        List.zipWith
          (fun a b => FV.gt a (FV.fin (q * sE)) || FV.gt b (FV.fin (q * sL)))
          (excDeviations e recs d) (lsDeviations e recs d)) := by
  refine ⟨?_, ?_, ?_⟩
  · intro q hq
    exact ⟨fun fuel => eqRun_fuel_stable e (some (FV.fin q)) fuel _,
      eqRun_two_valid e q hq _ rfl⟩
  · intro limit hskip
    exact eqRun_two_skip e limit _ rfl hskip
  · intro q sE sL hq hsE hsL recs d hE hLs
    exact outlierFlags_spec e q sE sL recs d hq hsE hsL hE hLs

theorem c4_one_rejection_pass_witness :
    eqRun envW (some (FV.fin 3)) (0 + 2)
        (initLoopState defaultFilterTransition tsW [1, 2]) =
      equalibrium_state envW defaultFilterTransition (some (FV.fin 3)) tsW [1, 2] ∧
    equalibrium_state envW defaultFilterTransition (some (FV.fin 3)) tsW [1, 2] =
      (let st0 := initLoopState defaultFilterTransition tsW [1, 2]
       let d := computeDiag envW st0.recs st0.neutral st0.ionised
       let recs2 := applyFlags st0.recs (outlierFlags envW (FV.fin 3) st0.recs d)
       some ((computeDiag envW recs2 d.neutral d.ionised).state, recs2)) ∧
    equalibrium_state envW defaultFilterTransition none tsW [1, 2] =
      (let st0 := initLoopState defaultFilterTransition tsW [1, 2]
       some ((computeDiag envW st0.recs st0.neutral st0.ionised).state, st0.recs)) ∧
    outlierFlags envW (FV.fin 3) recsW diagW =
      List.zipWith
        (fun a b => FV.gt a (FV.fin (3 * 0)) || FV.gt b (FV.fin (3 * 0)))
        (excDeviations envW recsW diagW) (lsDeviations envW recsW diagW) := by
  obtain ⟨hvalid, hskip, hflags⟩ :=
    c4_one_rejection_pass envW defaultFilterTransition tsW [1, 2]
  exact ⟨(hvalid 3 (by norm_num)).1 0, (hvalid 3 (by norm_num)).2,
    hskip none rfl,
    hflags 3 0 0 (by norm_num) le_rfl le_rfl recsW diagW
      (by with_unfolding_all decide) (by with_unfolding_all decide)⟩

/-- Claim C2 (amended): for a line table whose neutral-line regression set
has all x-values identical (in particular, fewer than two points, or zero
excitation-potential spread), `equalibrium_state` does not raise any
error: it returns normally, with a NaN excitation slope silently inside
the diagnostics.  No DiagnosticUndefined error exists in the code. -/
theorem c2_nan_propagates (e : Env) (filterT : Trans → Bool) (limit : Option FV)
    (ts : List Trans) (returned : List ℚ) (c : ℚ)
    (hconst : ∀ v ∈ initialNeutralRegressionXs filterT ts returned, v = FV.fin c) :
    ∃ st recs, equalibrium_state e filterT limit ts returned = some (st, recs) ∧
      st.excitation_slope = FV.nan := by
  have h0 : (initLoopState filterT ts returned).outliers_removed = false := rfl
  by_cases hskip : limitSkipsRejection limit = true
  · refine ⟨_, _, eqRun_two_skip e limit _ h0 hskip, ?_⟩
    rw [computeDiag_excitation_slope]
    exact linregress_const_x c _ _ hconst
  · rcases limit with _ | v
    · exact absurd rfl hskip
    rcases v with _ | _ | _ | q
    · exact absurd rfl hskip
    · exact absurd rfl hskip
    · exact absurd rfl hskip
    have hq : 0 < q := by
      by_contra hle
      exact hskip (by simpa [limitSkipsRejection] using not_lt.mp hle)
    refine ⟨_, _, eqRun_two_valid e q hq _ h0, ?_⟩
    rw [computeDiag_excitation_slope]
    apply linregress_const_x c
    intro v hv
    apply hconst
    set st0 := initLoopState filterT ts returned with hst0
    have hneu : (computeDiag e st0.recs st0.neutral st0.ionised).neutral =
        maskAnd st0.neutral
          (st0.recs.map (fun r => r.is_filtered && !r.is_outlier)) := rfl
    rw [hneu] at hv
    have hv2 := mem_maskSelect_maskAnd _ _ _ _ hv
    rwa [applyFlags_map_excp] at hv2

theorem c2_nan_propagates_witness :
    ∃ st recs,
      equalibrium_state env7 defaultFilterTransition (some (FV.fin 3)) ts2c [1, 2] =
        some (st, recs) ∧ st.excitation_slope = FV.nan :=
  c2_nan_propagates env7 defaultFilterTransition (some (FV.fin 3)) ts2c [1, 2] 1
    (by with_unfolding_all decide)

/-- Claim C2: refuted as stated.  On a two-line table with zero
excitation-potential spread, `equalibrium_state` returns successfully (no
DiagnosticUndefined error — none exists in the code) and the returned
excitation slope is NaN. -/
theorem c2_counterexample :
    (equalibrium_state env7 defaultFilterTransition (some (FV.fin 3)) ts2c [1, 2]).map
        (fun r => r.1.excitation_slope) = some FV.nan ∧
    (equalibrium_state env7 defaultFilterTransition (some (FV.fin 3)) ts2c [1, 2]).isSome
      = true := by
  with_unfolding_all decide

/-- Claim C7: refuted.  On the five-line table `ts7` with threshold 3, the
first rejection pass flags only line 4 (deviations 2.5, 2.5, 2.5, 5, 7.5
against sigma 2), but applying the pass a second time flags two further
lines (the refitted line has deviations 1, 1, 2, 2 against sigma one
half), so the single pass is not idempotent. -/
theorem c7_counterexample :
    (pass7a.1.map (fun r => r.is_outlier)) = [false, false, false, false, true] ∧
    (pass7b.1.map (fun r => r.is_outlier)) = [false, false, true, true, true] ∧
    (pass7a.1.map (fun r => r.is_outlier)).get? 2 = some false ∧
    (pass7b.1.map (fun r => r.is_outlier)).get? 2 = some true := by
  with_unfolding_all decide

/-- Claim C7 (amended): the rejection pass is not idempotent in general,
but the implementation cannot oscillate because the loop applies the pass
exactly once: with a positive finite threshold, `equalibrium_state` is
exactly the diagnostics computed once on the output of a single
`rejectionPass` application. -/
theorem c7_single_pass_only (e : Env) (filterT : Trans → Bool) (ts : List Trans)
    (returned : List ℚ) (q : ℚ) (hq : 0 < q) :
    equalibrium_state e filterT (some (FV.fin q)) ts returned =
      (let st0 := initLoopState filterT ts returned
       let p1 := rejectionPass e (FV.fin q) st0.recs st0.neutral st0.ionised
       some ((computeDiag e p1.1 p1.2.1 p1.2.2).state, p1.1)) :=
  eqRun_two_valid e q hq _ rfl

theorem c7_single_pass_only_witness :
    equalibrium_state env7 defaultFilterTransition (some (FV.fin 3)) ts7
        [1, -1, 2, -2, 12] =
      (let st0 := initLoopState defaultFilterTransition ts7 [1, -1, 2, -2, 12]
       let p1 := rejectionPass env7 (FV.fin 3) st0.recs st0.neutral st0.ionised
       some ((computeDiag env7 p1.1 p1.2.1 p1.2.2).state, p1.1)) :=
  c7_single_pass_only env7 defaultFilterTransition ts7 [1, -1, 2, -2, 12] 3
    (by norm_num)

theorem c6_augmentation_bounded_witness :
    (∃ r, fitProfileLoop id (fun _ _ => true) (fun _ => ⟨0, 0, 0⟩) true 2 [] =
        some r ∧ r.length ≤ 0 + (2 - 1) ∧ r.length ≤ 0 + 2) ∧
    ((fun (_ : ℕ) (_ : List Gauss) => true) 1 (id ([] : List Gauss)) = false →
      fitProfileLoop id (fun _ _ => true) (fun _ => ⟨0, 0, 0⟩) true 2 [] =
        some (id [])) := by
  have h := c6_augmentation_bounded id (fun _ _ => true) (fun _ => ⟨0, 0, 0⟩)
    2 [] (by decide) (fun _ => rfl)
  simpa using h

theorem hasCol_iff_mem (tbl : List Column) (n : ColName) :
    hasCol tbl n = true ↔ n ∈ tbl.map (fun c => c.name) := by
  simp [hasCol, List.any_eq_true, List.mem_map]

theorem hasCol_of_perm {t1 t2 : List Column}
    (hp : (t1.map (fun c => c.name)).Perm (t2.map (fun c => c.name)))
    {n : ColName} (h : hasCol t2 n = true) : hasCol t1 n = true := by
  rw [hasCol_iff_mem] at h ⊢
  exact hp.mem_iff.mpr h

theorem addOrFixColumn_invariants (tbl : List Column) (c : Column)
    (hnd : (tbl.map (fun x => x.name)).Nodup) (h : hasCol tbl c.name = true) :
    ((addOrFixColumn tbl c).map (fun x => x.name)).Perm (tbl.map (fun x => x.name)) ∧
    colDtype (addOrFixColumn tbl c) c.name = some c.dtype ∧
    (∀ n, n ≠ c.name → colDtype (addOrFixColumn tbl c) n = colDtype tbl n) := by
  have hff : (!hasCol tbl c.name) = false := by rw [h]; rfl
  -- the column is present: find the first occurrence
  have hex : ∃ a ∈ tbl, (fun x => x.name == c.name) a = true := by
    unfold hasCol at h
    simpa [List.any_eq_true] using h
  obtain ⟨a, hal, hpa⟩ := hex
  obtain ⟨a2, l1, l2, hl1, hpa2, hsplit, herase⟩ :=
    List.exists_of_eraseP (p := fun x => x.name == c.name) hal hpa
  have ha2name : a2.name = c.name := by simpa using hpa2
  have hpa2b : (fun x : Column => x.name == c.name) a2 = true := hpa2
  have hd : colDtype tbl c.name = some a2.dtype := by
    unfold colDtype
    rw [hsplit, List.find?_append]
    have h1 : l1.find? (fun x => x.name == c.name) = none :=
      List.find?_eq_none.mpr hl1
    rw [h1, List.find?_cons_of_pos (p := fun x : Column => x.name == c.name) _ hpa2b]
    rfl
  -- names of l2 do not contain c.name (uniqueness)
  have hl2 : ∀ b ∈ l2, (b.name == c.name) = false := by
    intro b hb
    have hnd2 := hnd
    rw [hsplit] at hnd2
    simp only [List.map_append, List.map_cons] at hnd2
    have := (List.nodup_append.mp hnd2).2.1
    rw [List.nodup_cons] at this
    have hnotmem : a2.name ∉ l2.map (fun x => x.name) := this.1
    by_contra hbc
    simp only [Bool.not_eq_false, beq_iff_eq] at hbc
    exact hnotmem (by
      rw [ha2name, ← hbc] at *
      exact List.mem_map.mpr ⟨b, hb, rfl⟩)
  by_cases hdt : a2.dtype = c.dtype
  · have hstep : addOrFixColumn tbl c = tbl := by
      unfold addOrFixColumn
      rw [hd]
      simp [hff, hdt]
    rw [hstep]
    exact ⟨List.Perm.refl _, by rw [hd, hdt], fun n _ => rfl⟩
  · have hstep : addOrFixColumn tbl c =
        (tbl.eraseP (fun x => x.name == c.name)) ++ [c] := by
      unfold addOrFixColumn
      rw [hd]
      simp [hff, hdt]
    rw [hstep]
    refine ⟨?_, ?_, ?_⟩
    · rw [herase, hsplit]
      simp only [List.map_append, List.map_cons, List.map_nil]
      refine (List.perm_append_singleton _ _).trans ?_
      rw [ha2name]
      exact (List.perm_middle).symm
    · unfold colDtype
      rw [herase, List.append_assoc, List.find?_append, List.find?_append]
      have h1 : l1.find? (fun x => x.name == c.name) = none :=
        List.find?_eq_none.mpr hl1
      have h2 : l2.find? (fun x => x.name == c.name) = none :=
        List.find?_eq_none.mpr (fun b hb => by simp [hl2 b hb])
      rw [h1, h2,
        List.find?_cons_of_pos (p := fun x : Column => x.name == c.name) _ (by simp)]
      rfl
    · intro n hn
      unfold colDtype
      rw [herase, hsplit, List.append_assoc, List.find?_append, List.find?_append,
        List.find?_append]
      have hc : ([c].find? (fun x => x.name == n)) = none := by
        rw [List.find?_eq_none]
        intro b hb
        simp only [List.mem_singleton] at hb
        subst hb
        simp [Ne.symm hn]
      have ha2n : ((a2 :: l2).find? (fun x => x.name == n)) =
          l2.find? (fun x => x.name == n) := by
        rw [List.find?_cons_of_neg]
        simp [ha2name, Ne.symm hn]
      rw [hc, ha2n, Option.or_none]

theorem c8_required_pass (tbl : List Column)
    (hreq : ∀ n ∈ requiredColumns, hasCol tbl n = true) :
    initialise_atomic_transitions tbl =
      .ok (defaultColumns.foldl addOrFixColumn tbl) := by
  unfold initialise_atomic_transitions
  have hfind : requiredColumns.find? (fun n => !hasCol tbl n) = none := by
    rw [List.find?_eq_none]
    intro n hn
    simp [hreq n hn]
  rw [hfind]

/-- Claim C8: re-initialising from a table that already carries the four
derived columns neither duplicates nor loses columns (the output column
names are a permutation of the input names, still without duplicates), and
every derived column ends with exactly the dtype of the freshly
initialised schema. -/
theorem c8_schema_round_trip (tbl : List Column)
    (hnd : (tbl.map (fun c => c.name)).Nodup)
    (hreq : ∀ n ∈ requiredColumns, hasCol tbl n = true)
    (hder : ∀ c ∈ defaultColumns, hasCol tbl c.name = true) :
    ∃ out, initialise_atomic_transitions tbl = .ok out ∧
      (out.map (fun c => c.name)).Perm (tbl.map (fun c => c.name)) ∧
      (out.map (fun c => c.name)).Nodup ∧
      (∀ c ∈ defaultColumns, colDtype out c.name = some c.dtype) := by
  refine ⟨_, c8_required_pass tbl hreq, ?_⟩
  have hew := hder ⟨.equivalent_width, .float64⟩ (by simp [defaultColumns])
  have hcl := hder ⟨.clean, .boolean⟩ (by simp [defaultColumns])
  have hab := hder ⟨.abundance, .float64⟩ (by simp [defaultColumns])
  have hcm := hder ⟨.custom_mask, .string32⟩ (by simp [defaultColumns])
  have i1 := addOrFixColumn_invariants tbl ⟨.equivalent_width, .float64⟩ hnd hew
  set a1 := addOrFixColumn tbl ⟨.equivalent_width, .float64⟩ with ha1
  have hnd1 : (a1.map (fun c => c.name)).Nodup := i1.1.nodup_iff.mpr hnd
  have i2 := addOrFixColumn_invariants a1 ⟨.clean, .boolean⟩ hnd1
    (hasCol_of_perm i1.1 hcl)
  set a2 := addOrFixColumn a1 ⟨.clean, .boolean⟩ with ha2
  have hnd2 : (a2.map (fun c => c.name)).Nodup := i2.1.nodup_iff.mpr hnd1
  have i3 := addOrFixColumn_invariants a2 ⟨.abundance, .float64⟩ hnd2
    (hasCol_of_perm (i2.1.trans i1.1) hab)
  set a3 := addOrFixColumn a2 ⟨.abundance, .float64⟩ with ha3
  have hnd3 : (a3.map (fun c => c.name)).Nodup := i3.1.nodup_iff.mpr hnd2
  have i4 := addOrFixColumn_invariants a3 ⟨.custom_mask, .string32⟩ hnd3
    (hasCol_of_perm (i3.1.trans (i2.1.trans i1.1)) hcm)
  set a4 := addOrFixColumn a3 ⟨.custom_mask, .string32⟩ with ha4
  have hout : defaultColumns.foldl addOrFixColumn tbl = a4 := by
    simp [defaultColumns, List.foldl_cons, ← ha1, ← ha2, ← ha3, ← ha4]
  rw [hout]
  have hperm : (a4.map (fun c => c.name)).Perm (tbl.map (fun c => c.name)) :=
    i4.1.trans (i3.1.trans (i2.1.trans i1.1))
  refine ⟨hperm, hperm.nodup_iff.mpr hnd, ?_⟩
  intro c hc
  simp only [defaultColumns, List.mem_cons, List.not_mem_nil, or_false] at hc
  rcases hc with rfl | rfl | rfl | rfl
  · rw [i4.2.2 _ (by decide), i3.2.2 _ (by decide), i2.2.2 _ (by decide)]
    exact i1.2.1
  · rw [i4.2.2 _ (by decide), i3.2.2 _ (by decide)]
    exact i2.2.1
  · rw [i4.2.2 _ (by decide)]
    exact i3.2.1
  · exact i4.2.1

theorem c8_schema_round_trip_witness :
    ∃ out, initialise_atomic_transitions
        [⟨.wavelength, .float64⟩, ⟨.species, .float64⟩,
         ⟨.excitation_potential, .float64⟩, ⟨.loggf, .float64⟩,
         ⟨.equivalent_width, .float64⟩, ⟨.clean, .boolean⟩,
         ⟨.abundance, .float64⟩, ⟨.custom_mask, .string32⟩] = .ok out ∧
      (out.map (fun c => c.name)).Perm
        ([⟨.wavelength, .float64⟩, ⟨.species, .float64⟩,
          ⟨.excitation_potential, .float64⟩, ⟨.loggf, .float64⟩,
          ⟨.equivalent_width, .float64⟩, ⟨.clean, .boolean⟩,
          ⟨.abundance, .float64⟩,
          (⟨.custom_mask, .string32⟩ : Column)].map (fun c => c.name)) ∧
      (out.map (fun c => c.name)).Nodup ∧
      (∀ c ∈ defaultColumns, colDtype out c.name = some c.dtype) :=
  c8_schema_round_trip _ (by decide) (by decide) (by decide)

theorem interpolatedPhotosphere_none (teff logg mh : Option ℚ)
    (h : teff = none ∨ logg = none ∨ mh = none) :
    interpolatedPhotosphere teff logg mh = none := by
  rcases teff with _ | a <;> rcases logg with _ | b <;> rcases mh with _ | c <;>
    simp [interpolatedPhotosphere] at h ⊢

theorem fitBatchGo_error (rows : List TransRow) (region : ℚ) :
    ∀ idxs : List ℕ,
      (∃ i ∈ idxs, ∃ t, rows[i]? = some t ∧ blendingAny rows i region = true) →
      ∃ k t, k ∈ idxs ∧ rows[k]? = some t ∧ blendingAny rows k region = true ∧
        fitBatchGo rows region none idxs =
          .error (.blendsWithoutStellarParameters t.wavelength) := by
  intro idxs
  induction idxs with
  | nil => rintro ⟨i, hi, _⟩; exact absurd hi (List.not_mem_nil i)
  | cons i rest ih =>
    rintro ⟨j, hj, t, hjt, hjb⟩
    cases hgi : rows[i]? with
    | none =>
      have hjr : j ∈ rest := by
        rcases List.mem_cons.mp hj with rfl | hjr
        · rw [hjt] at hgi; exact absurd hgi (by simp)
        · exact hjr
      obtain ⟨k, t2, hk, hkt, hkb, herr⟩ := ih ⟨j, hjr, t, hjt, hjb⟩
      refine ⟨k, t2, List.mem_cons_of_mem i hk, hkt, hkb, ?_⟩
      simpa [fitBatchGo, hgi] using herr
    | some t0 =>
      by_cases hb : blendingAny rows i region = true
      · exact ⟨i, t0, List.mem_cons_self i rest, hgi, hb, by
          simp [fitBatchGo, hgi, hb]⟩
      · have hjr : j ∈ rest := by
          rcases List.mem_cons.mp hj with rfl | hjr
          · rw [hjt] at hgi
            injection hgi with hgi2
            exact absurd hjb hb
          · exact hjr
        obtain ⟨k, t2, hk, hkt, hkb, herr⟩ := ih ⟨j, hjr, t, hjt, hjb⟩
        refine ⟨k, t2, List.mem_cons_of_mem i hk, hkt, hkb, ?_⟩
        simp [fitBatchGo, hgi, hb, herr, Except.map]

/-- Claim C9: when any of the stellar parameters needed for blend
synthesis is missing (no photosphere), the batch fails with a ValueError
identifying a measurable transition that has another catalogued line
within the wavelength window; the error aborts the whole batch (the fold
returns an error, processing no remaining transition). -/
theorem c9_blends_abort_batch (rows : List TransRow) (data : List Spectrum)
    (region : ℚ) (teff logg mh : Option ℚ)
    (hmissing : teff = none ∨ logg = none ∨ mh = none)
    (hex : ∃ i ∈ maskSelect (measurableMask rows data) (List.range rows.length),
      ∃ t, rows[i]? = some t ∧ blendingAny rows i region = true) :
    ∃ k t, k ∈ maskSelect (measurableMask rows data) (List.range rows.length) ∧
      rows[k]? = some t ∧ blendingAny rows k region = true ∧
      fit_atomic_transitions_batch rows data region teff logg mh =
        .error (.blendsWithoutStellarParameters t.wavelength) := by
  unfold fit_atomic_transitions_batch
  rw [interpolatedPhotosphere_none teff logg mh hmissing]
  exact fitBatchGo_error rows region _ hex

theorem c9_blends_abort_batch_witness :
    ∃ k t, k ∈ maskSelect
        (measurableMask [⟨100, true⟩, ⟨101, false⟩] [⟨90, 110⟩])
        (List.range 2) ∧
      ([⟨100, true⟩, (⟨101, false⟩ : TransRow)])[k]? = some t ∧
      blendingAny [⟨100, true⟩, ⟨101, false⟩] k (5 / 2) = true ∧
      fit_atomic_transitions_batch [⟨100, true⟩, ⟨101, false⟩] [⟨90, 110⟩]
          (5 / 2) (some 5000) (some 4) none =
        .error (.blendsWithoutStellarParameters t.wavelength) :=
  c9_blends_abort_batch [⟨100, true⟩, ⟨101, false⟩] [⟨90, 110⟩] (5 / 2)
    (some 5000) (some 4) none (Or.inr (Or.inr rfl))
    ⟨0, by with_unfolding_all decide, ⟨100, true⟩,
      by with_unfolding_all decide, by with_unfolding_all decide⟩

theorem buildRecs_is_filtered (filterT : Trans → Bool) :
    ∀ (ts : List Trans) (returned : List ℚ),
      (buildRecs filterT ts returned).map (fun r => r.is_filtered) =
        ts.map filterT := by
  intro ts
  induction ts with
  | nil => intro _; rfl
  | cons t ts ih =>
    intro returned
    by_cases hf : filterT t = true
    · cases returned with
      | nil => simp [buildRecs, hf, mkLineRec, ih]
      | cons a rest => simp [buildRecs, hf, mkLineRec, ih]
    · have hf2 : filterT t = false := by simpa using hf
      simp [buildRecs, hf2, mkLineRec, ih]

theorem buildRecs_mem (filterT : Trans → Bool) :
    ∀ (ts : List Trans) (returned : List ℚ),
      ∀ r ∈ buildRecs filterT ts returned,
        r.is_outlier = false ∧ (r.is_filtered = false → r.abundance = FV.nan) := by
  intro ts
  induction ts with
  | nil => intro _ r hr; exact absurd hr (List.not_mem_nil r)
  | cons t ts ih =>
    intro returned r hr
    by_cases hf : filterT t = true
    · cases returned with
      | nil =>
        simp only [buildRecs, hf, if_true] at hr
        rcases List.mem_cons.mp hr with rfl | htail
        · exact ⟨rfl, by simp [mkLineRec]⟩
        · exact ih [] r htail
      | cons a rest =>
        simp only [buildRecs, hf, if_true] at hr
        rcases List.mem_cons.mp hr with rfl | htail
        · exact ⟨rfl, by simp [mkLineRec]⟩
        · exact ih rest r htail
    · have hf2 : filterT t = false := by simpa using hf
      simp only [buildRecs, hf2, Bool.false_eq_true, if_false] at hr
      rcases List.mem_cons.mp hr with rfl | htail
      · exact ⟨rfl, fun _ => rfl⟩
      · exact ih returned r htail

/-- Claim C10: with the default filter, a transition passes the filter
exactly when its measured equivalent width is a finite value strictly
between 5 and 200 milliAngstrom; the built records mirror the filter
positionally, every record starts unflagged, every filter-failing record
carries a NaN abundance, and the used-line mask of any diagnostics
evaluation on the fresh records is exactly the filter mask, so the four
initial diagnostics are computed from precisely the filter-passing
lines. -/
theorem c10_default_filter_contributions (ts : List Trans) (returned : List ℚ)
    (e : Env) :
    (∀ t : Trans, defaultFilterTransition t = true ↔
      ∃ q : ℚ, t.equivalent_width = FV.fin q ∧ 5 < q ∧ q < 200) ∧
    (buildRecs defaultFilterTransition ts returned).map (fun r => r.is_filtered) =
      ts.map defaultFilterTransition ∧
    (∀ r ∈ buildRecs defaultFilterTransition ts returned,
      r.is_outlier = false ∧ (r.is_filtered = false → r.abundance = FV.nan)) ∧
    (∀ nm im : List Bool,
      (computeDiag e (buildRecs defaultFilterTransition ts returned) nm im).use =
        (buildRecs defaultFilterTransition ts returned).map
          (fun r => r.is_filtered)) := by
  refine ⟨?_, buildRecs_is_filtered _ ts returned, buildRecs_mem _ ts returned, ?_⟩
  · intro t
    unfold defaultFilterTransition
    cases hw : t.equivalent_width with
    | nan => simp [FV.gt, FV.lt]
    | inf => simp [FV.gt, FV.lt]
    | ninf => simp [FV.gt, FV.lt]
    | fin q =>
      simp only [FV.gt, FV.lt, Bool.and_eq_true, decide_eq_true_eq]
      constructor
      · rintro ⟨h1, h2⟩
        exact ⟨q, rfl, h2, h1⟩
      · rintro ⟨q2, hq2, h5, h200⟩
        injection hq2 with hq2
        subst hq2
        exact ⟨h200, h5⟩
  · intro nm im
    have huse : (computeDiag e (buildRecs defaultFilterTransition ts returned) nm im).use =
        (buildRecs defaultFilterTransition ts returned).map
          (fun r => r.is_filtered && !r.is_outlier) := rfl
    rw [huse]
    apply List.map_congr_left
    intro r hr
    rw [(buildRecs_mem _ ts returned r hr).1]
    simp

theorem c10_default_filter_contributions_witness :
    defaultFilterTransition ⟨5000, 26, 1, 0, 0, FV.fin 10⟩ = true ∧
    (buildRecs defaultFilterTransition tsW [1, 2]).map (fun r => r.is_filtered) =
      tsW.map defaultFilterTransition ∧
    (computeDiag envW (buildRecs defaultFilterTransition tsW [1, 2]) nmW imW).use =
      (buildRecs defaultFilterTransition tsW [1, 2]).map (fun r => r.is_filtered) := by
  have h := c10_default_filter_contributions tsW [1, 2] envW
  exact ⟨(h.1 _).mpr ⟨10, rfl, by norm_num, by norm_num⟩, h.2.1, h.2.2.2 nmW imW⟩

end Oracle
